import Mathlib

set_option maxRecDepth 8192

/-!
Verification of the IOTSCP device runtime against its specification.

The definitions below are shallow embeddings of the Python sources:
bytearrays become `List Nat` with entries below 256, dictionaries become
association lists with last-assignment-wins lookup, socket reads become an
explicit list of chunks (one entry per successful `recv` call), and raised
exceptions become `Except`/`Option` results.
-/

namespace Iotscp

/-! ## Session cipher (src/iotscp/core/scsession.py)

`SCSession.encrypt` walks the input bytearray and replaces the byte at
position `i` by `cipher[input[i]] XOR cipher[i % 256]`.  `SCSession.decrypt`
builds the dict `key_map = {b: i for i, b in enumerate(cipher)}` and replaces
the byte at position `i` by `key_map[input[i] XOR cipher[i % 256]]`; a miss in
the dict is a `KeyError`, modelled by `Option`. -/

/-- The dict `{b: i for i, b in enumerate(cipher)}` evaluated at key `b`:
a comprehension inserts pairs in order, so a later index overwrites an
earlier one with the same byte value.  `none` models a `KeyError`. -/
def keyMapLookup (cipher : List Nat) (b : Nat) : Option Nat :=
  cipher.enum.foldl (fun acc p => if p.2 = b then some p.1 else acc) none

/-- The encryption loop of `SCSession.encrypt` starting at position `i`:
`input_u8[i] = self.cipher[input_u8[i]] ^ self.cipher[i % 256]`. -/
def encryptFrom (cipher : List Nat) : Nat → List Nat → List Nat
  | _, [] => []
  | i, b :: rest =>
      ((cipher.getD b 0) ^^^ (cipher.getD (i % 256) 0)) :: encryptFrom cipher (i + 1) rest

/-- Model of `SCSession.encrypt` applied to a bytearray (the cipher state is a
parameter; re-randomization is modelled separately by `SCSession.encryptCall`). -/
def encrypt (cipher : List Nat) (input : List Nat) : List Nat :=
  encryptFrom cipher 0 input

/-- The decryption loop of `SCSession.decrypt` starting at position `i`:
`input_u8[i] = key_map[input_u8[i] ^ self.cipher[i % 256]]`. -/
def decryptFrom (cipher : List Nat) : Nat → List Nat → Option (List Nat)
  | _, [] => some []
  | i, b :: rest =>
      (keyMapLookup cipher (b ^^^ cipher.getD (i % 256) 0)).bind fun v =>
        (decryptFrom cipher (i + 1) rest).map fun out => v :: out

/-- The byte transformation performed by `SCSession.decrypt` (the final
`.decode("utf-8")` of the Python code is the stdlib codec and is outside the
byte-level cipher; `none` models the `KeyError` raised on an inverse-map miss). -/
def decrypt (cipher : List Nat) (input : List Nat) : Option (List Nat) :=
  decryptFrom cipher 0 input

/-- One iteration of the loop in `SCSession.__randomize`:
`old = cipher[i]; cipher[i] = cipher[key[i]]; cipher[key[i]] = old`.
Both reads happen before the writes take effect on the entries read. -/
def swapStep (c : List Nat) (i j : Nat) : List Nat :=
  (c.set i (c.getD j 0)).set j (c.getD i 0)

/-- The full loop of `SCSession.__randomize`: for `i` in `0..255` swap
`cipher[i]` with `cipher[key[i]]`.  (Marked irreducible so that unification
never unrolls the 256-step fold on symbolic ciphers.) -/
@[irreducible] def randomizeCipher (c : List Nat) (key : List Nat) : List Nat :=
  (List.range 256).foldl (fun acc i => swapStep acc i (key.getD i 0)) c

/-- The mutable state of `SCSession`: the 256-entry cipher, `__prev_key` and
`__new_key`.  Key bytes are `Nat`s below 256. -/
structure SCSession where
  cipher : List Nat
  prevKey : List Nat
  newKey : List Nat

/-- Model of `SCSession.__init__`: the cipher starts as `bytearray(range(256))`; the
two PBKDF2-derived keys are abstracted as parameters (their derivation mixes
the certificate and wall-clock time). -/
def SCSession.init (k0 k1 : List Nat) : SCSession :=
  { cipher := List.range 256, prevKey := k0, newKey := k1 }

/-- Model of `SCSession.__randomize`: derive a key from `__prev_key` (via
`SCSession.__get_key`, which also stores it into `__new_key`), then run the
swap loop over the cipher.  `derive` abstracts
`pbkdf2_hmac(hashtype, prev_key, str(segment_time), 100, 256)` and `t` the
segment time read from the session clock. -/
def SCSession.randomize (derive : List Nat → Nat → List Nat) (t : Nat)
    (s : SCSession) : SCSession :=
  { cipher := randomizeCipher s.cipher (derive s.prevKey t),
    prevKey := s.prevKey,
    newKey := derive s.prevKey t }

/-- Model of `SCSession.encrypt` as a state transition: if `__prev_key == __new_key`
the cipher is re-randomized first.  Returns the new state, the output bytes
and whether a randomization happened during this call. -/
def SCSession.encryptCall (derive : List Nat → Nat → List Nat) (t : Nat)
    (input : List Nat) (s : SCSession) : SCSession × List Nat × Bool :=
  if s.prevKey = s.newKey then
    let s2 := s.randomize derive t
    (s2, encrypt s2.cipher input, true)
  else
    (s, encrypt s.cipher input, false)

/-- Model of `SCSession.decrypt` as a state transition, with the same
re-randomization guard as `SCSession.encryptCall`. -/
def SCSession.decryptCall (derive : List Nat → Nat → List Nat) (t : Nat)
    (input : List Nat) (s : SCSession) : SCSession × Option (List Nat) × Bool :=
  if s.prevKey = s.newKey then
    let s2 := s.randomize derive t
    (s2, decrypt s2.cipher input, true)
  else
    (s, decrypt s.cipher input, false)

/-- Model of `SCSession.update_key`: `self.__prev_key = self.__new_key`. -/
def SCSession.update_key (s : SCSession) : SCSession :=
  { s with prevKey := s.newKey }

/-- The calls a client of `SCSession` can make, each encrypt/decrypt carrying
the segment time its possible randomization would read. -/
inductive SCOp
  | enc (t : Nat) (input : List Nat)
  | dec (t : Nat) (input : List Nat)
  | upd

/-- Run one session operation for its state effect. -/
def SCSession.runOp (derive : List Nat → Nat → List Nat) (s : SCSession) :
    SCOp → SCSession
  | .enc t input => (s.encryptCall derive t input).1
  | .dec t input => (s.decryptCall derive t input).1
  | .upd => s.update_key

/-- Run a sequence of session operations. -/
def SCSession.runOps (derive : List Nat → Nat → List Nat) (s : SCSession) :
    List SCOp → SCSession
  | [] => s
  | op :: ops => (s.runOp derive op).runOps derive ops

/-! ## Service method argument validation (src/iotscp/core/services.py)

`ServiceMethod.main` iterates the declared `(name, type)` pairs: a name
absent from the decrypted argument bag raises `ServiceArgError`; otherwise
the code runs `isinstance(arg, _type)` — on the declared NAME `arg`, not on
the supplied value `args_dict[arg]` (contrast `verify_output`, which checks
`isinstance(output[arg], _type)`).  Only if the loop finishes is the thunk
invoked. -/

/-- The closed set of semantic types a `ServiceArg` may declare. -/
inductive PyType
  | pybool
  | pyint
  | pyfloat
  | pystr
  | pylist
  | pydict
deriving DecidableEq

/-- JSON-decoded Python values as far as the type checks observe them. -/
inductive PyVal
  | vbool (b : Bool)
  | vint (n : Int)
  | vfloat
  | vstr (s : String)
  | vlist
  | vdict
deriving DecidableEq

/-- Python's `isinstance` on the modelled values (`bool` is a subclass of
`int`, so a `bool` value passes an `int` check). -/
def isinstance : PyVal → PyType → Bool
  | .vbool _, .pybool => true
  | .vbool _, .pyint => true
  | .vint _, .pyint => true
  | .vfloat, .pyfloat => true
  | .vstr _, .pystr => true
  | .vlist, .pylist => true
  | .vdict, .pydict => true
  | _, _ => false

/-- Lookup in the decrypted argument bag (a JSON object has unique keys). -/
def bagLookup (bag : List (String × PyVal)) (k : String) : Option PyVal :=
  (bag.find? fun p => p.1 = k).map fun p => p.2

/-- The two ways `ServiceMethod.main` raises `ServiceArgError`. -/
inductive ServiceArgErr
  | missingArg (name : String)
  | typeMismatch (name : String)
deriving DecidableEq

/-- The `for arg, _type in self.args` loop of `ServiceMethod.main`:
`if arg not in args_dict: raise ...` then `elif not isinstance(arg, _type):
raise ...` — the `isinstance` receives the declared name string `arg`.
`Except.ok` means the loop finished and the thunk is invoked. -/
def mainArgLoop : List (String × PyType) → List (String × PyVal) →
    Except ServiceArgErr Unit
  | [], _ => .ok ()
  | (arg, ty) :: rest, bag =>
    if (bagLookup bag arg).isNone then .error (.missingArg arg)
    else if ¬ isinstance (.vstr arg) ty then .error (.typeMismatch arg)
    else mainArgLoop rest bag

/-- A service method as far as argument validation observes it. -/
structure ServiceMethod where
  name : String
  args : List (String × PyType)

/-- Argument validation of `ServiceMethod.main`: `ok` iff the thunk runs. -/
def ServiceMethod.main (m : ServiceMethod) (bag : List (String × PyVal)) :
    Except ServiceArgErr Unit :=
  mainArgLoop m.args bag

/-- The validation the specification describes for claim C4 (stated from the
spec words, for comparison with `ServiceMethod.main`): every declared name is
bound in the bag and the bound VALUE satisfies the declared type. -/
def specArgsValid (args : List (String × PyType))
    (bag : List (String × PyVal)) : Bool :=
  args.all fun p =>
    match bagLookup bag p.1 with
    | some v => isinstance v p.2
    | none => false

/-! ## Body receive loop (src/iotscp/http/httpbase/httputil.py, recv_body)

`HttpHead.recv_body` computes `nbytes = content-length - len(body)` and loops
`while amt < nbytes: amt += client.recv_into(buf); self.body.extend(buf[:amt])`.
The slice bound is the CUMULATIVE `amt`, not the size of the last read.
The socket is modelled by the list of chunks successive `recv_into` calls
deposit at the front of `buf` (each at most 4096 bytes, the buffer size);
`none` models blocking forever on an exhausted socket. -/

/-- Model of `client.recv_into(buf)`: the read bytes overwrite the front of `buf`. -/
def writeFront (buf r : List Nat) : List Nat :=
  r ++ buf.drop r.length

/-- The `while amt < nbytes` loop of `recv_body`. -/
def recvBodyLoop (nbytes : Nat) (amt : Nat) (buf body : List Nat) :
    List (List Nat) → Option (List Nat)
  | [] => if nbytes ≤ amt then some body else none
  | r :: rs =>
    if nbytes ≤ amt then some body
    else
      recvBodyLoop nbytes (amt + r.length) (writeFront buf r)
        (body ++ (writeFront buf r).take (amt + r.length)) rs

/-- Model of `HttpHead.recv_body`: `body0` is the body prefix already captured during
head parsing, `contentLength` the parsed `content-length` header. -/
def recv_body (contentLength : Nat) (body0 : List Nat)
    (reads : List (List Nat)) : Option (List Nat) :=
  if body0.length < contentLength then
    recvBodyLoop (contentLength - body0.length) 0 (List.replicate 4096 0)
      body0 reads
  else some body0

/-! ## Request dispatch (src/iotscp/http/httpbase/httpserver.py)

`HttpServer.handle_one_request` builds `req = HttpRequest(client)` at line 60
and only then binds `serverclient = ServerClient(req, client, addr)` at line
61.  The `except VersionError` clause at lines 76-79 executes
`serverclient.keep_alive = False`; when `HttpRequest` itself raised, the
local `serverclient` was never assigned, so that statement raises
`UnboundLocalError` and neither the `write_generic_body(505)` nor the
`return False` is reached. -/

/-- Outcome of `HttpRequest(client)` as observed by `handle_one_request`. -/
inductive ReqParse
  | parsed (reqType : String)
  | nullRequestError
  | versionError

/-- Python exceptions escaping `handle_one_request`. -/
inductive PyExn
  | unboundLocalError
deriving DecidableEq

/-- Result of `handle_one_request`: either a normal return with the
keep-alive flag and the status codes written to the client, or an escaping
exception. -/
inductive HandleResult
  | ret (keepAlive : Bool) (writes : List Nat)
  | raises (e : PyExn)
deriving DecidableEq

/-- The `except VersionError` block, parametrised by the state of the local
variable `serverclient` (`none` when line 61 was never reached). -/
def versionErrorHandler : Option Unit → HandleResult
  | none => .raises .unboundLocalError
  | some () => .ret false [505]

/-- Model of `HttpServer.handle_one_request`: the verb dispatch on a parsed request
(`hasHandle` = verb present in `self.handles`, `handlerRaises` = the handler
threw, `keepAlive` = the flag the handler left on the serverclient), and the
three except clauses.  In the `versionError` case, `serverclient` is unbound. -/
def handle_one_request (p : ReqParse) (hasHandle handlerRaises
    keepAlive : Bool) : HandleResult :=
  match p with
  | .parsed _ =>
    if hasHandle then
      if handlerRaises then .ret true [500]
      else .ret keepAlive []
    else .ret true [501]
  | .nullRequestError => .ret false []
  | .versionError => versionErrorHandler none

/-! ## Regex models (src/iotscp/http/httpbase/httputil.py)

`RE_REQLINE = (.+?)(?: )(.+?)(?: )(.+?)(?:\r\n)` and
`RE_HEADERS = (.+?)(?::\s*)(.+?)(?:\r\n)`, implemented with Python's
backtracking semantics: a lazy `.+?` tries the shortest nonempty run first
(never crossing a newline, since DOTALL is off), a greedy `\s*` the longest
whitespace run first, and later choice points backtrack before earlier ones. -/

/-- Lazy `(.+?)`: the shortest nonempty newline-free prefix whose remainder
satisfies the continuation; on failure the prefix grows. -/
def lazyMatch {β : Type} (k : List Char → Option β) :
    List Char → Option (List Char × β)
  | [] => none
  | c :: rest =>
    if c = '\n' then none
    else
      match k rest with
      | some b => some ([c], b)
      | none =>
        match lazyMatch k rest with
        | some (a, b) => some (c :: a, b)
        | none => none

/-- A literal single character in a regex. -/
def expectChar (c : Char) : List Char → Option (List Char)
  | [] => none
  | x :: rest => if x = c then some rest else none

/-- Python's ASCII `\s` class. -/
def isPySpace (c : Char) : Bool :=
  c = ' ' || c = '\t' || c = '\n' || c = '\r' || c = '\x0b' || c = '\x0c'

/-- Greedy `\s*`: consume the longest run of whitespace whose remainder
satisfies the continuation, backtracking to shorter runs. -/
def greedyWs {β : Type} (k : List Char → Option β) : List Char → Option β
  | [] => k []
  | c :: rest =>
    if isPySpace c then
      match greedyWs k rest with
      | some b => some b
      | none => k (c :: rest)
    else k (c :: rest)

/-- Model of `RE_REQLINE.match(head)` (anchored at the start): the three groups of
`VERB SP URL SP PROTO CRLF`, or `none` — in which case `HttpHead.__init__`
raises `VersionError`. -/
def matchReqline (s : List Char) :
    Option (List Char × List Char × List Char) :=
  match lazyMatch (fun r1 =>
      (expectChar ' ' r1).bind fun r2 =>
        lazyMatch (fun r3 =>
            (expectChar ' ' r3).bind fun r4 =>
              lazyMatch (fun r5 =>
                  (expectChar '\r' r5).bind (expectChar '\n')) r4) r2) s with
  | some (g1, g2, g3, _) => some (g1, g2, g3)
  | none => none

/-- One anchored attempt of `RE_HEADERS`: key group, value group, and the
remainder of the string after the consumed `\r\n`. -/
def matchHeader (s : List Char) :
    Option (List Char × List Char × List Char) :=
  lazyMatch (fun r1 =>
    (expectChar ':' r1).bind fun r2 =>
      greedyWs (fun r3 =>
        lazyMatch (fun r4 =>
            (expectChar '\r' r4).bind (expectChar '\n')) r3) r2) s

/-- Model of `RE_HEADERS.finditer`: scan left to right, yielding non-overlapping
matches and resuming after each match (fuelled; `findHeaders` supplies fuel
`s.length`, which a later theorem shows is never exhausted since every match
consumes at least one character). -/
def findHeadersFuel : Nat → List Char → List (List Char × List Char)
  | 0, _ => []
  | _ + 1, [] => []
  | fuel + 1, c :: t =>
    match matchHeader (c :: t) with
    | some (g1, g2, rest) => (g1, g2) :: findHeadersFuel fuel rest
    | none => findHeadersFuel fuel t

/-- All `RE_HEADERS` matches of a head string, in order. -/
def findHeaders (s : List Char) : List (List Char × List Char) :=
  findHeadersFuel s.length s

/-- A parsed header value: `content-length` is converted to an integer
(`NUMBER_TYPES`), everything else stays a string. -/
inductive HVal
  | hstr (v : List Char)
  | hint (n : Int)
deriving DecidableEq

/-- Python 2 `str.lower` on the ASCII header keys. -/
def pyLower (s : List Char) : List Char :=
  s.map Char.toLower

/-- Python `int()` on a header value string: strip whitespace, optional
sign, at least one digit, base 10; `none` is the `ValueError` that
`parse_number` turns into `HeaderTypeError`. -/
def pyInt (v : List Char) : Option Int :=
  let core := ((v.dropWhile isPySpace).reverse.dropWhile isPySpace).reverse
  match core with
  | '+' :: ds =>
    if ds ≠ [] ∧ ds.all Char.isDigit then
      some (Int.ofNat (ds.foldl (fun acc c => acc * 10 + (c.toNat - 48)) 0))
    else none
  | '-' :: ds =>
    if ds ≠ [] ∧ ds.all Char.isDigit then
      some (-(Int.ofNat (ds.foldl (fun acc c => acc * 10 + (c.toNat - 48)) 0)))
    else none
  | ds =>
    if ds ≠ [] ∧ ds.all Char.isDigit then
      some (Int.ofNat (ds.foldl (fun acc c => acc * 10 + (c.toNat - 48)) 0))
    else none

/-- The dict build of `parse_headers`: keys lowercased, `content-length`
values parsed as integers (a failure is `HeaderTypeError`, the `.error`). -/
def buildHeaders : List (List Char × List Char) →
    Except Unit (List (List Char × HVal))
  | [] => .ok []
  | (k, v) :: rest =>
    if pyLower k = "content-length".toList then
      match pyInt v with
      | some n => (buildHeaders rest).map fun hs => (pyLower k, HVal.hint n) :: hs
      | none => .error ()
    else (buildHeaders rest).map fun hs => (pyLower k, HVal.hstr v) :: hs

/-- Model of `parse_headers(head_str)`: find all header matches and build the dict. -/
def parse_headers (s : List Char) : Except Unit (List (List Char × HVal)) :=
  buildHeaders (findHeaders s)

/-- Lookup in the headers dict: assignment order means the LAST entry with a
given key wins. -/
def headerGet (hs : List (List Char × HVal)) (k : List Char) : Option HVal :=
  (hs.reverse.find? fun p => p.1 = k).map fun p => p.2

/-! ## Discovery responder (src/iotscp/http/udpserver.py) -/

/-- Model of `data.decode("ascii")`: every byte must be below 128. -/
def decodeAscii (d : List Nat) : Option (List Char) :=
  if d.all (fun b => b < 128) then some (d.map fun b => Char.ofNat b)
  else none

/-- Model of `should_respond(head_str)`: request line must match `RE_REQLINE` with
first group `IOT-SEARCH` (the URL and protocol groups are not inspected);
then parse headers (which can raise `HeaderTypeError`, the `.error`) and
require host, sv and return to carry the three expected values. -/
def should_respond (s : List Char) : Except Unit Bool :=
  match matchReqline s with
  | some (g1, _, _) =>
    if g1 = "IOT-SEARCH".toList then
      match parse_headers s with
      | .error e => .error e
      | .ok hs =>
        .ok (match headerGet hs "host".toList, headerGet hs "sv".toList,
            headerGet hs "return".toList with
          | some hv, some sv, some rv =>
            decide (hv = HVal.hstr "239.255.255.250:1900".toList) &&
              decide (sv = HVal.hstr "iotscp:discover".toList) &&
              decide (rv = HVal.hstr "device; type=basedevice".toList)
          | _, _, _ => false)
    else .ok false
  | none => .ok false

/-- Model of `UDPServer.listen` on one datagram: reply iff the ASCII decode succeeds
and `should_respond` returns `True`; any exception (bad ASCII or
`HeaderTypeError`) is caught and produces no reply. -/
def repliesTo (d : List Nat) : Bool :=
  match decodeAscii d with
  | none => false
  | some s =>
    match should_respond s with
    | .ok b => b
    | .error _ => false

/-- The reply condition as the SPEC words it, stated for comparison with
`repliesTo`: the datagram ASCII-decodes, the request line matches
`IOT-SEARCH * HTTP/1.1` (all three fields), and the parsed headers carry the
three required values. -/
def specRespondCond (d : List Nat) : Bool :=
  match decodeAscii d with
  | none => false
  | some s =>
    match matchReqline s with
    | some (g1, g2, g3) =>
      if g1 = "IOT-SEARCH".toList ∧ g2 = "*".toList ∧ g3 = "HTTP/1.1".toList
      then
        match parse_headers s with
        | .error _ => false
        | .ok hs =>
          match headerGet hs "host".toList, headerGet hs "sv".toList,
              headerGet hs "return".toList with
          | some hv, some sv, some rv =>
            decide (hv = HVal.hstr "239.255.255.250:1900".toList) &&
              decide (sv = HVal.hstr "iotscp:discover".toList) &&
              decide (rv = HVal.hstr "device; type=basedevice".toList)
          | _, _, _ => false
      else false
    | none => false

/-! ## HTTP head reading (src/iotscp/http/httpbase/httputil.py, get_head)

The socket is modelled by the list of chunks successive `recv_into` calls
return (each at most `BUFSIZE = 4096` bytes).  `none` models blocking
forever on a read that never arrives. -/

/-- The errors `get_head` can raise. -/
inductive HeadErr
  | nullRequestError
  | httpErrorTooLong
  | httpErrorBadAscii
deriving DecidableEq

/-- Model of `bytearray.find(b"\r\n\r\n")` from position `p`. -/
def findSepFrom : List Nat → Nat → Option Nat
  | [], _ => none
  | b :: t, p =>
    if (b :: t).take 4 = [13, 10, 13, 10] then some p
    else findSepFrom t (p + 1)

/-- Index of the first CRLF-CRLF in a byte string, if any. -/
def findSep (l : List Nat) : Option Nat :=
  findSepFrom l 0

/-- Split the accumulated bytes at separator index `bs`:
`head = recvd[:bs+2]` ASCII-decoded (a decode failure is an HTTPError),
`body = recvd[bs+4:]`. -/
def mkHeadResult (data : List Nat) (bs : Nat) :
    Except HeadErr (List Char × List Nat) :=
  match decodeAscii (data.take (bs + 2)) with
  | some s => .ok (s, data.drop (bs + 4))
  | none => .error .httpErrorBadAscii

/-- As `mkHeadResult` but for the first-read fast path, where the body slice
is bounded by `amt = r.length`: `body = buf[bs+4:amt]`. -/
def mkFirstResult (r buf : List Nat) (bs : Nat) :
    Except HeadErr (List Char × List Nat) :=
  match decodeAscii (buf.take (bs + 2)) with
  | some s => .ok (s, (buf.take r.length).drop (bs + 4))
  | none => .error .httpErrorBadAscii

/-- The accumulation loop of `get_head`: `while len(recvd) < 65537`, recv a
chunk, extend `recvd` with exactly the fresh bytes, search for the
separator; on loop exit raise `HTTPError("HTTP head too long")`. -/
def get_head_loop (recvd : List Nat) :
    List (List Nat) → Option (Except HeadErr (List Char × List Nat))
  | [] =>
    if 65537 ≤ recvd.length then some (.error .httpErrorTooLong) else none
  | r :: rs =>
    if 65537 ≤ recvd.length then some (.error .httpErrorTooLong)
    else
      match findSep (recvd ++ r) with
      | some bs => some (mkHeadResult (recvd ++ r) bs)
      | none => get_head_loop (recvd ++ r) rs

/-- Model of `get_head(client)`: first recv into a fresh 4096-byte buffer; zero bytes
raise `NullRequestError`; a short read is searched in place (the buffer keeps
its zero padding, exactly as `buf.find` sees it); a full buffer, or a short
read without separator, falls through to the accumulation loop seeded with
the whole (padded) buffer. -/
def get_head : List (List Nat) → Option (Except HeadErr (List Char × List Nat))
  | [] => none
  | r :: rs =>
    if r.length < 4096 then
      if r.length = 0 then some (.error .nullRequestError)
      else
        match findSep (r ++ List.replicate (4096 - r.length) 0) with
        | some bs => some (mkFirstResult r (r ++ List.replicate (4096 - r.length) 0) bs)
        | none => get_head_loop (r ++ List.replicate (4096 - r.length) 0) rs
    else get_head_loop r rs

/-! ## Session creation (src/iotscp/core/basedevice.py, create_session) -/

/-- JSON values as decoded from the hello body. -/
inductive JVal
  | jnull
  | jbool (b : Bool)
  | jnum (n : Int)
  | jstr (s : String)
  | jarr (xs : List JVal)
  | jobj (fs : List (String × JVal))

/-- Key lookup in a JSON object (unique keys). -/
def jdictLookup (fs : List (String × JVal)) (k : String) : Option JVal :=
  (fs.find? fun p => p.1 = k).map fun p => p.2

/-- Python `a in external` for the decoded `algorithms` value: membership
for a list, substring for a string, key membership for a dict, `TypeError`
(the `.error`) for the other JSON shapes. -/
def pyIn (a : String) : JVal → Except Unit Bool
  | .jarr xs =>
    .ok (xs.any fun x =>
      match x with
      | .jstr s2 => s2 = a
      | _ => false)
  | .jstr s => .ok (decide (List.IsInfix (a.toList) (s.toList)))
  | .jobj fs => .ok (fs.any fun p => p.1 = a)
  | _ => .error ()

/-- The `for alg in ALGORITHMS` loop of `get_common_algorithm`. -/
def findCommonAlg (external : JVal) : List String → Except Unit (Option String)
  | [] => .ok none
  | a :: rest =>
    match pyIn a external with
    | .error e => .error e
    | .ok true => .ok (some a)
    | .ok false => findCommonAlg external rest

/-- Model of `get_common_algorithm(external, prefered)`: the preferred algorithm when
the remote offers it, else the first algorithm of the device's
strength-ordered list offered by the remote; `.ok none` is the
`ValueError("No common algorithm found")`. -/
def get_common_algorithm (algs : List String) (external : JVal)
    (pref : Option String) : Except Unit (Option String) :=
  match pref with
  | some p =>
    match pyIn p external with
    | .error e => .error e
    | .ok true => .ok (some p)
    | .ok false => findCommonAlg external algs
  | none => findCommonAlg external algs

/-- An HTTP response written by the device hub: `write_body(code, ctype,
payload)` or `write_head(code)`. -/
inductive Resp
  | body (code : Nat) (ctype : String) (payload : String)
  | head (code : Nat)
deriving DecidableEq

/-- Model of `json.dumps(dict(missing=field))` as Python 2 renders it. -/
def jsonMissing (field : String) : String :=
  "\x7b\"missing\": \"" ++ field ++ "\"\x7d"

/-- Model of `BaseDevice.create_session` on a body that already parsed as a JSON
object `args` (a parse failure is a 500, outside the claims):
`session_args["offset"]` first (a `KeyError` answers 401 with the missing
field name via `ke.message`); then `SCCertificate(uuid, offset)` — Modelled
from the spec: `sccertificate.py` is not under src/, so the certificate load
is the parameter `certLoad`, whose `.error` is the `NullCertificateError`
that answers 401 `{"missing": "certificate"}` per the spec's §3 and §7; then
`session_args["algorithms"]` (again 401 with the field name on `KeyError`);
then algorithm negotiation (any `TypeError`/`ValueError` is a 500); on
success write 200 with the chosen algorithm and install the session for
`uuid`.  Returns the response and the updated session table. -/
def create_session (certLoad : JVal → Except Unit Unit) (algs : List String)
    (pref : Option String) (uuid : String) (args : List (String × JVal))
    (sessions : List String) : Resp × List String :=
  match jdictLookup args "offset" with
  | none => (.body 401 "application/json" (jsonMissing "offset"), sessions)
  | some off =>
    match certLoad off with
    | .error () =>
      (.body 401 "application/json" (jsonMissing "certificate"), sessions)
    | .ok () =>
      match jdictLookup args "algorithms" with
      | none =>
        (.body 401 "application/json" (jsonMissing "algorithms"), sessions)
      | some algv =>
        match get_common_algorithm algs algv pref with
        | .error () => (.head 500, sessions)
        | .ok none => (.head 500, sessions)
        | .ok (some alg) =>
          (.body 200 "text/plain; charset=utf-8" alg, uuid :: sessions)

end Iotscp

namespace Iotscp

/-! ### Dictionary-lookup lemmas for the decrypt inverse map -/

/-- If every matching pair in `l` carries index `i`, folding the dict build
over `l` starting from `some i` stays at `some i`. -/
theorem lookup_foldl_const (b i : Nat) :
    ∀ l : List (Nat × Nat), (∀ p ∈ l, p.2 = b → p.1 = i) →
      l.foldl (fun acc p => if p.2 = b then some p.1 else acc) (some i) = some i := by
  intro l
  induction l with
  | nil => intro _; rfl
  | cons q rest ih =>
    intro h
    simp only [List.foldl_cons]
    by_cases hq : q.2 = b
    · rw [if_pos hq, h q (List.mem_cons_self q rest) hq]
      exact ih fun p hp hpb => h p (List.mem_cons_of_mem q hp) hpb
    · rw [if_neg hq]
      exact ih fun p hp hpb => h p (List.mem_cons_of_mem q hp) hpb

/-- If `(i, b)` occurs in `l` and every pair of `l` whose value is `b` carries
index `i`, the dict build looks `b` up to `some i`, from any accumulator. -/
theorem lookup_foldl_of_mem (b i : Nat) :
    ∀ (l : List (Nat × Nat)) (init : Option Nat), (i, b) ∈ l →
      (∀ p ∈ l, p.2 = b → p.1 = i) →
      l.foldl (fun acc p => if p.2 = b then some p.1 else acc) init = some i := by
  intro l
  induction l with
  | nil => intro init hmem _; cases hmem
  | cons q rest ih =>
    intro init hmem h
    simp only [List.foldl_cons]
    by_cases hq : q.2 = b
    · rw [if_pos hq, h q (List.mem_cons_self q rest) hq]
      exact lookup_foldl_const b i rest fun p hp hpb => h p (List.mem_cons_of_mem q hp) hpb
    · rw [if_neg hq]
      have hmem2 : (i, b) ∈ rest := by
        rcases List.mem_cons.mp hmem with hqe | hr
        · exact absurd (congrArg Prod.snd hqe.symm) hq
        · exact hr
      exact ih init hmem2 fun p hp hpb => h p (List.mem_cons_of_mem q hp) hpb

/-- On a duplicate-free cipher, the inverse map sends `cipher[j]` back to `j`. -/
theorem keyMapLookup_getElem (cs : List Nat) (hnd : cs.Nodup) (j : Nat)
    (hj : j < cs.length) : keyMapLookup cs (cs.get ⟨j, hj⟩) = some j := by
  apply lookup_foldl_of_mem
  · exact List.mk_mem_enum_iff_getElem?.mpr (List.getElem?_eq_getElem hj)
  · rintro ⟨pi, pb⟩ hp hpb
    have hge : cs[pi]? = some pb := List.mk_mem_enum_iff_getElem?.mp hp
    have hpi : pi < cs.length := by
      by_contra hcon
      rw [List.getElem?_eq_none (Nat.le_of_not_lt hcon)] at hge
      cases hge
    have hval : cs[pi] = pb := by
      rw [List.getElem?_eq_getElem hpi] at hge
      exact Option.some.inj hge
    have : cs[pi] = cs[j] := by rw [hval]; exact hpb
    exact (hnd.getElem_inj_iff).mp this

/-- The dict fold never drops a `some` accumulator. -/
theorem lookup_foldl_isSome_of_init (b : Nat) :
    ∀ (l : List (Nat × Nat)) (init : Option Nat), init.isSome = true →
      (l.foldl (fun acc p => if p.2 = b then some p.1 else acc) init).isSome = true := by
  intro l
  induction l with
  | nil => intro init h; exact h
  | cons q rest ih =>
    intro init h
    simp only [List.foldl_cons]
    by_cases hq : q.2 = b
    · rw [if_pos hq]; exact ih (some q.1) rfl
    · rw [if_neg hq]; exact ih init h

/-- If some pair of `l` carries value `b`, the dict build finds an index. -/
theorem lookup_foldl_isSome (b : Nat) :
    ∀ (l : List (Nat × Nat)) (init : Option Nat), (∃ p ∈ l, p.2 = b) →
      (l.foldl (fun acc p => if p.2 = b then some p.1 else acc) init).isSome = true := by
  intro l
  induction l with
  | nil => rintro init ⟨p, hp, _⟩; cases hp
  | cons q rest ih =>
    rintro init ⟨p, hp, hpb⟩
    simp only [List.foldl_cons]
    by_cases hq : q.2 = b
    · rw [if_pos hq]; exact lookup_foldl_isSome_of_init b rest (some q.1) rfl
    · rw [if_neg hq]
      rcases List.mem_cons.mp hp with hqe | hr
      · exact absurd (hqe ▸ hpb) hq
      · exact ih init ⟨p, hr, hpb⟩

/-- Every byte value occurring in the cipher is a key of its inverse map. -/
theorem keyMapLookup_isSome (c : List Nat) (b : Nat) (hb : b ∈ c) :
    (keyMapLookup c b).isSome = true := by
  obtain ⟨n, hn, he⟩ := List.getElem_of_mem hb
  exact lookup_foldl_isSome b c.enum none
    ⟨(n, b), List.mk_mem_enum_iff_getElem?.mpr (he ▸ List.getElem?_eq_getElem hn), rfl⟩

end Iotscp

namespace Iotscp

/-! ### Swap-loop permutation lemmas -/

/-- Pulling the `j`-th element in front of a list whose `j`-th slot was
overwritten with `a` is a permutation of pushing `a` in front. -/
theorem cons_set_perm {α : Type} (t : List α) (j : Nat) (hj : j < t.length)
    (a : α) : (t.get ⟨j, hj⟩ :: t.set j a).Perm (a :: t) := by
  have hdecomp : t = t.take j ++ t.get ⟨j, hj⟩ :: t.drop (j + 1) := by
    rw [List.get_eq_getElem, ← List.drop_eq_getElem_cons hj, List.take_append_drop]
  have hset : t.set j a = t.take j ++ a :: t.drop (j + 1) :=
    List.set_eq_take_cons_drop a hj
  rw [hset]
  refine (List.Perm.cons _ List.perm_middle).trans
    ((List.Perm.swap a (t.get ⟨j, hj⟩) _).trans (List.Perm.cons a ?_))
  conv_rhs => rw [hdecomp]
  exact List.perm_middle.symm

/-- Writing `l[j]` into slot `i` and the old `l[i]` into slot `j` (the body of
the `__randomize` loop) permutes the list. -/
theorem set_set_perm {α : Type} :
    ∀ (l : List α) (i j : Nat) (hi : i < l.length) (hj : j < l.length),
      ((l.set i (l.get ⟨j, hj⟩)).set j (l.get ⟨i, hi⟩)).Perm l := by
  intro l
  induction l with
  | nil => intro i _ hi _; exact absurd hi (Nat.not_lt_zero i)
  | cons a t ih =>
    intro i j hi hj
    match i, j with
    | 0, 0 => simp
    | 0, j + 1 =>
      have hj2 : j < t.length := Nat.lt_of_succ_lt_succ hj
      simpa using cons_set_perm t j hj2 a
    | i + 1, 0 =>
      have hi2 : i < t.length := Nat.lt_of_succ_lt_succ hi
      simpa using cons_set_perm t i hi2 a
    | i + 1, j + 1 =>
      have hi2 : i < t.length := Nat.lt_of_succ_lt_succ hi
      have hj2 : j < t.length := Nat.lt_of_succ_lt_succ hj
      simpa using List.Perm.cons a (ih i j hi2 hj2)

/-- A single swap of the `__randomize` loop preserves the cipher up to
permutation, whenever both indices are in range. -/
theorem swapStep_perm (cs : List Nat) (i j : Nat) (hi : i < cs.length)
    (hj : j < cs.length) : (swapStep cs i j).Perm cs := by
  have h1 : cs.getD j 0 = cs.get ⟨j, hj⟩ := by
    rw [List.getD_eq_getElem?_getD, List.getElem?_eq_getElem hj]; rfl
  have h2 : cs.getD i 0 = cs.get ⟨i, hi⟩ := by
    rw [List.getD_eq_getElem?_getD, List.getElem?_eq_getElem hi]; rfl
  unfold swapStep
  rw [h1, h2]
  exact set_set_perm cs i j hi hj

/-- Folding swap steps over in-range indices keeps the cipher a permutation
of `0..255`, provided the key bytes are below 256. -/
theorem foldl_swapStep_perm (key : List Nat) (hk : ∀ b ∈ key, b < 256) :
    ∀ (idxs : List Nat) (cs : List Nat), (∀ i ∈ idxs, i < 256) →
      cs.Perm (List.range 256) →
      (idxs.foldl (fun acc i => swapStep acc i (key.getD i 0)) cs).Perm
        (List.range 256) := by
  intro idxs
  induction idxs with
  | nil => exact fun cs _ h => h
  | cons i rest ih =>
    intro cs hidx hcs
    simp only [List.foldl_cons]
    apply ih
    · exact fun x hx => hidx x (List.mem_cons_of_mem i hx)
    · have hlen : cs.length = 256 := by rw [hcs.length_eq, List.length_range]
      have hi : i < cs.length := by
        rw [hlen]; exact hidx i (List.mem_cons_self i rest)
      have hj : key.getD i 0 < cs.length := by
        rw [hlen]
        by_cases hil : i < key.length
        · rw [List.getD_eq_getElem?_getD, List.getElem?_eq_getElem hil]
          exact hk _ (List.getElem_mem hil)
        · rw [List.getD_eq_getElem?_getD,
            List.getElem?_eq_none (Nat.le_of_not_lt hil)]
          decide
      exact (swapStep_perm cs i (key.getD i 0) hi hj).trans hcs

/-- Randomization (`SCSession.__randomize`) keeps the cipher a permutation of `0..255`. -/
theorem randomizeCipher_perm (cs key : List Nat)
    (hcs : cs.Perm (List.range 256)) (hk : ∀ b ∈ key, b < 256) :
    (randomizeCipher cs key).Perm (List.range 256) := by
  unfold randomizeCipher
  exact foldl_swapStep_perm key hk (List.range 256) cs
    (fun i hi => List.mem_range.mp hi) hcs

/-- Any sequence of session operations keeps the cipher a permutation of
`0..255`, provided derived keys consist of bytes. -/
theorem runOps_cipher_perm (derive : List Nat → Nat → List Nat)
    (hderive : ∀ k t, ∀ b ∈ derive k t, b < 256) :
    ∀ (ops : List SCOp) (s : SCSession), s.cipher.Perm (List.range 256) →
      (s.runOps derive ops).cipher.Perm (List.range 256) := by
  intro ops
  induction ops with
  | nil => exact fun s h => h
  | cons op rest ih =>
    intro s hs
    show ((s.runOp derive op).runOps derive rest).cipher.Perm (List.range 256)
    apply ih
    cases op with
    | enc t input =>
      show ((s.encryptCall derive t input).1).cipher.Perm (List.range 256)
      unfold SCSession.encryptCall
      by_cases h : s.prevKey = s.newKey
      · rw [if_pos h]
        exact randomizeCipher_perm s.cipher (derive s.prevKey t) hs
          (hderive s.prevKey t)
      · rw [if_neg h]
        exact hs
    | dec t input =>
      show ((s.decryptCall derive t input).1).cipher.Perm (List.range 256)
      unfold SCSession.decryptCall
      by_cases h : s.prevKey = s.newKey
      · rw [if_pos h]
        exact randomizeCipher_perm s.cipher (derive s.prevKey t) hs
          (hderive s.prevKey t)
      · rw [if_neg h]
        exact hs
    | upd => exact hs

end Iotscp

namespace Iotscp

/-- Evaluation of `SCSession.encrypt` when `__prev_key == __new_key`: randomize, then map. -/
theorem encryptCall_of_eq (derive : List Nat → Nat → List Nat) (t : Nat)
    (m : List Nat) (s : SCSession) (h : s.prevKey = s.newKey) :
    s.encryptCall derive t m =
      (s.randomize derive t, encrypt (s.randomize derive t).cipher m, true) := by
  unfold SCSession.encryptCall
  rw [if_pos h]

/-- Evaluation of `SCSession.encrypt` when the keys differ: no randomization. -/
theorem encryptCall_of_ne (derive : List Nat → Nat → List Nat) (t : Nat)
    (m : List Nat) (s : SCSession) (h : s.prevKey ≠ s.newKey) :
    s.encryptCall derive t m = (s, encrypt s.cipher m, false) := by
  unfold SCSession.encryptCall
  rw [if_neg h]

/-- Evaluation of `SCSession.decrypt` when the keys differ: no randomization. -/
theorem decryptCall_of_ne (derive : List Nat → Nat → List Nat) (t : Nat)
    (m : List Nat) (s : SCSession) (h : s.prevKey ≠ s.newKey) :
    s.decryptCall derive t m = (s, decrypt s.cipher m, false) := by
  unfold SCSession.decryptCall
  rw [if_neg h]

/-- Evaluation of `SCSession.decrypt` when `__prev_key == __new_key`:
randomize, then map. -/
theorem decryptCall_of_eq (derive : List Nat → Nat → List Nat) (t : Nat)
    (m : List Nat) (s : SCSession) (h : s.prevKey = s.newKey) :
    s.decryptCall derive t m =
      (s.randomize derive t, decrypt (s.randomize derive t).cipher m, true) := by
  unfold SCSession.decryptCall
  rw [if_pos h]

/-- Round-trip of the per-byte cipher maps, at any starting position. -/
theorem decryptFrom_encryptFrom (cs : List Nat) (hcs : cs.Perm (List.range 256)) :
    ∀ m : List Nat, (∀ b ∈ m, b < 256) → ∀ i : Nat,
      decryptFrom cs i (encryptFrom cs i m) = some m := by
  have hlen : cs.length = 256 := by rw [hcs.length_eq, List.length_range]
  have hnd : cs.Nodup := (hcs.nodup_iff).mpr (List.nodup_range 256)
  intro m
  induction m with
  | nil => intro _ i; rfl
  | cons b rest ih =>
    intro hm i
    have hb2 : b < cs.length := by rw [hlen]; exact hm b (List.mem_cons_self b rest)
    have hgd : cs.getD b 0 = cs.get ⟨b, hb2⟩ := by
      rw [List.getD_eq_getElem?_getD, List.getElem?_eq_getElem hb2]; rfl
    simp only [encryptFrom, decryptFrom]
    rw [Nat.xor_cancel_right, hgd, keyMapLookup_getElem cs hnd b hb2,
      ih (fun x hx => hm x (List.mem_cons_of_mem b hx)) (i + 1)]
    rfl

/-- C1: with the same cipher state in effect on both sides, decrypt inverts
encrypt on every byte sequence: encrypt sends the byte at position `i` to
`cipher[in[i]] XOR cipher[i mod 256]` and decrypt recovers it by XORing with
`cipher[i mod 256]` and consulting the cipher's inverse map.  (A byte sequence
that is valid UTF-8 then also survives the final `.decode("utf-8")`, which is
the stdlib codec.) -/
theorem decrypt_encrypt_roundtrip (cs : List Nat)
    (hcs : cs.Perm (List.range 256)) (m : List Nat) (hm : ∀ b ∈ m, b < 256) :
    decrypt cs (encrypt cs m) = some m :=
  decryptFrom_encryptFrom cs hcs m hm 0

/-- Witness for C1 at a concrete cipher and message. -/
theorem decrypt_encrypt_roundtrip_witness :
    decrypt (List.range 256) (encrypt (List.range 256) [72, 105, 33]) =
      some [72, 105, 33] :=
  decrypt_encrypt_roundtrip (List.range 256) (List.Perm.refl _) [72, 105, 33]
    (by decide)

/-- C2: the cipher starts as the identity permutation `[0, 1, ..., 255]`,
each re-randomization step only swaps two entries (hence permutes the
cipher), and after any sequence of encrypt/decrypt/update calls the cipher is
still a permutation of `0..255`; derived keys consist of bytes. -/
theorem cipher_stays_permutation (derive : List Nat → Nat → List Nat)
    (hderive : ∀ k t, ∀ b ∈ derive k t, b < 256) (k0 k1 : List Nat)
    (ops : List SCOp) :
    (SCSession.init k0 k1).cipher = List.range 256 ∧
    (∀ (cs : List Nat) (i j : Nat), i < cs.length → j < cs.length →
        (swapStep cs i j).Perm cs) ∧
    ((SCSession.init k0 k1).runOps derive ops).cipher.Perm (List.range 256) :=
  ⟨rfl, fun cs i j hi hj => swapStep_perm cs i j hi hj,
    runOps_cipher_perm derive hderive ops (SCSession.init k0 k1)
      (List.Perm.refl _)⟩

/-- Witness for C2 at a concrete key schedule and operation sequence. -/
theorem cipher_stays_permutation_witness :
    ((SCSession.init (List.range 256) (List.range 256)).runOps
        (fun _ _ => List.range 256)
        [SCOp.upd, SCOp.enc 0 [1, 2], SCOp.dec 5 [3]]).cipher.Perm
      (List.range 256) :=
  (cipher_stays_permutation (fun _ _ => List.range 256)
    (fun _ _ b hb => List.mem_range.mp hb) (List.range 256) (List.range 256)
    [SCOp.upd, SCOp.enc 0 [1, 2], SCOp.dec 5 [3]]).2.2

/-- C3: after `update_key`, `previous_key == new_key`; the next encrypt OR
decrypt call randomizes the cipher exactly once, and because the
randomization installs the freshly derived key as `__new_key` (distinct from
`__prev_key`), an immediately following encrypt or decrypt does not
randomize again — whichever of encrypt or decrypt came first. -/
theorem update_key_single_randomize (derive : List Nat → Nat → List Nat)
    (s : SCSession) (t t2 t3 : Nat) (m1 m2 m3 : List Nat)
    (hfresh : derive s.newKey t ≠ s.newKey) :
    s.update_key.prevKey = s.update_key.newKey ∧
    (s.update_key.encryptCall derive t m1).2.2 = true ∧
    (s.update_key.decryptCall derive t m1).2.2 = true ∧
    ((s.update_key.encryptCall derive t m1).1.encryptCall derive t2 m2).2.2
      = false ∧
    ((s.update_key.encryptCall derive t m1).1.decryptCall derive t3 m3).2.2
      = false ∧
    ((s.update_key.decryptCall derive t m1).1.encryptCall derive t2 m2).2.2
      = false ∧
    ((s.update_key.decryptCall derive t m1).1.decryptCall derive t3 m3).2.2
      = false := by
  have h1 : s.update_key.prevKey = s.update_key.newKey := rfl
  have he := encryptCall_of_eq derive t m1 s.update_key h1
  have hd := decryptCall_of_eq derive t m1 s.update_key h1
  have h2 : (s.update_key.randomize derive t).prevKey ≠
      (s.update_key.randomize derive t).newKey := by
    show s.newKey ≠ derive s.newKey t
    exact fun hh => hfresh hh.symm
  refine ⟨rfl, ?_, ?_, ?_, ?_, ?_, ?_⟩
  · rw [he]
  · rw [hd]
  · rw [he]
    show ((s.update_key.randomize derive t).encryptCall derive t2 m2).2.2
      = false
    rw [encryptCall_of_ne derive t2 m2 _ h2]
  · rw [he]
    show ((s.update_key.randomize derive t).decryptCall derive t3 m3).2.2
      = false
    rw [decryptCall_of_ne derive t3 m3 _ h2]
  · rw [hd]
    show ((s.update_key.randomize derive t).encryptCall derive t2 m2).2.2
      = false
    rw [encryptCall_of_ne derive t2 m2 _ h2]
  · rw [hd]
    show ((s.update_key.randomize derive t).decryptCall derive t3 m3).2.2
      = false
    rw [decryptCall_of_ne derive t3 m3 _ h2]

/-- Witness for C3 at a concrete session and key-derivation function, for
both the encrypt-first and the decrypt-first case. -/
theorem update_key_single_randomize_witness :
    ((SCSession.mk (List.range 256) [0] [0]).update_key.encryptCall
        (fun _ _ => [1]) 0 [9]).2.2 = true ∧
    ((SCSession.mk (List.range 256) [0] [0]).update_key.decryptCall
        (fun _ _ => [1]) 0 [9]).2.2 = true :=
  ⟨(update_key_single_randomize (fun _ _ => [1])
      (SCSession.mk (List.range 256) [0] [0]) 0 1 2 [9] [8] [7]
      (by decide)).2.1,
    (update_key_single_randomize (fun _ _ => [1])
      (SCSession.mk (List.range 256) [0] [0]) 0 1 2 [9] [8] [7]
      (by decide)).2.2.1⟩

/-- C10: on a cipher that is a permutation of `0..255`, the decrypt lookup is
total: for every byte `b` and position `i` the value
`b XOR cipher[i mod 256]` is a key of the inverse map, so decrypt never hits
a `KeyError`; on arbitrary byte input the byte stage always produces a result
(only the final UTF-8 decode can fail). -/
theorem decrypt_lookup_total (cs : List Nat) (hcs : cs.Perm (List.range 256)) :
    (∀ b, b < 256 → ∀ i : Nat,
        (keyMapLookup cs (b ^^^ cs.getD (i % 256) 0)).isSome = true) ∧
    (∀ input : List Nat, (∀ b ∈ input, b < 256) →
        ∃ out, decrypt cs input = some out) := by
  have hlen : cs.length = 256 := by rw [hcs.length_eq, List.length_range]
  have hmem256 : ∀ x ∈ cs, x < 256 := fun x hx =>
    List.mem_range.mp (hcs.mem_iff.mp hx)
  have hkey : ∀ b, b < 256 → ∀ i : Nat,
      (keyMapLookup cs (b ^^^ cs.getD (i % 256) 0)).isSome = true := by
    intro b hb i
    have him : i % 256 < cs.length := by
      rw [hlen]; exact Nat.mod_lt i (by decide)
    have hgd : cs.getD (i % 256) 0 = cs.get ⟨i % 256, him⟩ := by
      rw [List.getD_eq_getElem?_getD, List.getElem?_eq_getElem him]; rfl
    have hci : cs.getD (i % 256) 0 < 256 := by
      rw [hgd, List.get_eq_getElem]; exact hmem256 _ (List.getElem_mem him)
    have hxor : b ^^^ cs.getD (i % 256) 0 < 256 := by
      have h2 : (256 : Nat) = 2 ^ 8 := by norm_num
      rw [h2] at hb hci ⊢
      exact Nat.xor_lt_two_pow hb hci
    exact keyMapLookup_isSome cs _ (hcs.mem_iff.mpr (List.mem_range.mpr hxor))
  refine ⟨hkey, ?_⟩
  intro input hin
  suffices h : ∀ inp : List Nat, (∀ b ∈ inp, b < 256) → ∀ i : Nat,
      ∃ out, decryptFrom cs i inp = some out by
    exact h input hin 0
  intro inp
  induction inp with
  | nil => exact fun _ _ => ⟨[], rfl⟩
  | cons b rest ih =>
    intro hbs i
    obtain ⟨v, hv⟩ := Option.isSome_iff_exists.mp
      (hkey b (hbs b (List.mem_cons_self b rest)) i)
    obtain ⟨out, hout⟩ := ih (fun x hx => hbs x (List.mem_cons_of_mem b hx))
      (i + 1)
    refine ⟨v :: out, ?_⟩
    simp only [decryptFrom]
    rw [hv, hout]
    rfl

/-- Witness for C10 at a concrete cipher, byte, position and input. -/
theorem decrypt_lookup_total_witness :
    (keyMapLookup (List.range 256)
        (7 ^^^ (List.range 256).getD (300 % 256) 0)).isSome = true ∧
    ∃ out, decrypt (List.range 256) [0, 77, 255] = some out :=
  ⟨(decrypt_lookup_total (List.range 256) (List.Perm.refl _)).1 7 (by decide)
      300,
    (decrypt_lookup_total (List.range 256) (List.Perm.refl _)).2 [0, 77, 255]
      (by decide)⟩

end Iotscp

namespace Iotscp

/-- C4 (code bug): `ServiceMethod.main` runs `isinstance(arg, _type)` on the
declared argument NAME instead of the supplied value (contrast its own
`verify_output`, which checks `isinstance(output[arg], _type)`).  A method
declaring `x : int` rejects the bag `{x: 5}` that the claimed validation
accepts, and a method declaring `x : string` invokes the thunk on the bag
`{x: 3}` that the claimed validation rejects. -/
theorem serviceMethod_main_checks_name_not_value :
    specArgsValid [("x", PyType.pyint)] [("x", PyVal.vint 5)] = true ∧
    (ServiceMethod.mk "m" [("x", PyType.pyint)]).main [("x", PyVal.vint 5)] =
      Except.error (ServiceArgErr.typeMismatch "x") ∧
    specArgsValid [("x", PyType.pystr)] [("x", PyVal.vint 3)] = false ∧
    (ServiceMethod.mk "m" [("x", PyType.pystr)]).main [("x", PyVal.vint 3)] =
      Except.ok () := by
  refine ⟨by decide, rfl, by decide, rfl⟩

/-- C5 (code bug): with `content-length = 4`, an empty body prefix from head
parsing, and the four body bytes arriving as two 2-byte reads, `recv_body`
stores `[1, 2, 3, 4, 0, 0]`: the loop extends the body with `buf[:amt]`
where `amt` is the CUMULATIVE byte count, re-appending a stale buffer
region.  The stored body differs from the sent bytes and its length is not
the content-length; a single 4-byte read is stored correctly. -/
theorem recv_body_duplicates_stale_bytes :
    recv_body 4 [] [[1, 2], [3, 4]] = some [1, 2, 3, 4, 0, 0] ∧
    recv_body 4 [] [[1, 2], [3, 4]] ≠ some [1, 2, 3, 4] ∧
    ([1, 2, 3, 4, 0, 0] : List Nat).length ≠ 4 ∧
    recv_body 4 [] [[1, 2, 3, 4]] = some [1, 2, 3, 4] := by
  refine ⟨by decide, by decide, by decide, by decide⟩

/-- C6 (code bug): a request whose head carries no `VERB SP URL SP PROTO
CRLF` line (e.g. the head `HELLO\r\n`) makes `HttpHead.__init__` raise
`VersionError`, and `handle_one_request` then raises `UnboundLocalError`
from its `except VersionError` block — the local `serverclient` was never
assigned — instead of writing the 505 with keep-alive false that its
docstring promises. -/
theorem handle_one_request_versionError_raises
    (hasHandle handlerRaises keepAlive : Bool) :
    matchReqline ("HELLO\r\n".toList) = none ∧
    handle_one_request .versionError hasHandle handlerRaises keepAlive =
      .raises .unboundLocalError ∧
    ∀ w : List Nat,
      handle_one_request .versionError hasHandle handlerRaises keepAlive ≠
        .ret false w := by
  refine ⟨by decide, rfl, fun w h => by cases h⟩

end Iotscp

namespace Iotscp

/-- C7 counterexample: with `offset` present, `algorithms` missing and a
null certificate for the uuid, `create_session` answers 401 with
`{"missing": "certificate"}` — not the name of the missing field
`algorithms` — refuting the claim as stated (the session table is still
unchanged). -/
theorem create_session_null_cert_names_certificate :
    create_session (fun _ => .error ()) ["sha256"] none "abc"
        [("offset", JVal.jnum 0)] [] =
      (.body 401 "application/json" (jsonMissing "certificate"), []) ∧
    jsonMissing "certificate" ≠ jsonMissing "algorithms" :=
  ⟨rfl, by decide⟩

/-- C7 amended: for a hello body that parsed as a JSON object, a missing
`offset` key yields 401 `{"missing": "offset"}` unconditionally; with
`offset` present, the certificate loading, and `algorithms` missing, the
handler yields 401 `{"missing": "algorithms"}`; in both cases the session
table is unchanged.  (With a null certificate the 401 body names
`certificate` instead — see the counterexample.) -/
theorem create_session_missing_field_401 (certLoad : JVal → Except Unit Unit)
    (algs : List String) (pref : Option String) (uuid : String)
    (args : List (String × JVal)) (sessions : List String) :
    (jdictLookup args "offset" = none →
      create_session certLoad algs pref uuid args sessions =
        (.body 401 "application/json" (jsonMissing "offset"), sessions)) ∧
    (∀ off, jdictLookup args "offset" = some off → certLoad off = .ok () →
      jdictLookup args "algorithms" = none →
      create_session certLoad algs pref uuid args sessions =
        (.body 401 "application/json" (jsonMissing "algorithms"), sessions)) := by
  constructor
  · intro h
    simp only [create_session, h]
  · intro off h1 h2 h3
    simp only [create_session, h1, h2, h3]

/-- Witness for the amended C7 theorem at concrete arguments. -/
theorem create_session_missing_field_401_witness :
    create_session (fun _ => .ok ()) ["sha256"] none "abc" [] [] =
      (.body 401 "application/json" (jsonMissing "offset"), []) ∧
    create_session (fun _ => .ok ()) ["sha256"] none "abc"
        [("offset", JVal.jnum 0)] [] =
      (.body 401 "application/json" (jsonMissing "algorithms"), []) :=
  ⟨(create_session_missing_field_401 (fun _ => .ok ()) ["sha256"] none "abc"
      [] []).1 rfl,
    (create_session_missing_field_401 (fun _ => .ok ()) ["sha256"] none "abc"
      [("offset", JVal.jnum 0)] []).2 (JVal.jnum 0) rfl rfl rfl⟩

end Iotscp

namespace Iotscp

/-- The accumulation loop of `get_head` never raises `NullRequestError`. -/
theorem get_head_loop_ne_null :
    ∀ (reads : List (List Nat)) (recvd : List Nat),
      get_head_loop recvd reads ≠ some (.error .nullRequestError) := by
  intro reads
  induction reads with
  | nil =>
    intro recvd h
    simp only [get_head_loop] at h
    by_cases hc : 65537 ≤ recvd.length
    · rw [if_pos hc] at h
      simp at h
    · rw [if_neg hc] at h
      cases h
  | cons r rs ih =>
    intro recvd h
    simp only [get_head_loop] at h
    by_cases hc : 65537 ≤ recvd.length
    · rw [if_pos hc] at h
      simp at h
    · rw [if_neg hc] at h
      cases hfs : findSep (recvd ++ r) with
      | some bs =>
        simp only [hfs] at h
        cases hda : decodeAscii ((recvd ++ r).take (bs + 2)) with
        | some s => simp [mkHeadResult, hda] at h
        | none => simp [mkHeadResult, hda] at h
      | none =>
        simp only [hfs] at h
        exact ih (recvd ++ r) h

/-- C8: `get_head` raises `NullRequestError` iff the first read returns zero
bytes; once the accumulated bytes reach the 65 537-byte cap the loop raises
`HTTPError`; and whenever the CRLF-CRLF separator is found under the cap the
call returns the ASCII-decoded head (bytes up to and including the first
CRLF of the separator) together with the raw bytes after the separator as
the body — both in the accumulation loop and on the first-read fast path. -/
theorem get_head_behavior :
    (∀ (r : List Nat) (rs : List (List Nat)), r.length ≤ 4096 →
      (get_head (r :: rs) = some (.error .nullRequestError) ↔ r = [])) ∧
    (∀ (recvd : List Nat) (reads : List (List Nat)), 65537 ≤ recvd.length →
      get_head_loop recvd reads = some (.error .httpErrorTooLong)) ∧
    (∀ (recvd r : List Nat) (rs : List (List Nat)) (bs : Nat) (s : List Char),
      recvd.length < 65537 → findSep (recvd ++ r) = some bs →
      decodeAscii ((recvd ++ r).take (bs + 2)) = some s →
      get_head_loop recvd (r :: rs) =
        some (.ok (s, (recvd ++ r).drop (bs + 4)))) ∧
    (∀ (r : List Nat) (rs : List (List Nat)) (bs : Nat) (s : List Char),
      0 < r.length → r.length < 4096 →
      findSep (r ++ List.replicate (4096 - r.length) 0) = some bs →
      decodeAscii ((r ++ List.replicate (4096 - r.length) 0).take (bs + 2)) =
        some s →
      get_head (r :: rs) =
        some (.ok (s,
          ((r ++ List.replicate (4096 - r.length) 0).take r.length).drop
            (bs + 4)))) := by
  refine ⟨?_, ?_, ?_, ?_⟩
  · intro r rs hr
    constructor
    · intro h
      by_contra hrne
      have hlen0 : ¬ r.length = 0 := fun hh =>
        hrne (List.eq_nil_of_length_eq_zero hh)
      simp only [get_head] at h
      by_cases h4 : r.length < 4096
      · rw [if_pos h4, if_neg hlen0] at h
        cases hfs : findSep (r ++ List.replicate (4096 - r.length) 0) with
        | some bs =>
          simp only [hfs] at h
          cases hda : decodeAscii
              ((r ++ List.replicate (4096 - r.length) 0).take (bs + 2)) with
          | some s => simp [mkFirstResult, hda] at h
          | none => simp [mkFirstResult, hda] at h
        | none =>
          simp only [hfs] at h
          exact get_head_loop_ne_null rs _ h
      · rw [if_neg h4] at h
        exact get_head_loop_ne_null rs r h
    · intro h
      subst h
      rfl
  · intro recvd reads h
    cases reads with
    | nil =>
      simp only [get_head_loop]
      rw [if_pos h]
    | cons r rs =>
      simp only [get_head_loop]
      rw [if_pos h]
  · intro recvd r rs bs s hlen hfs hda
    have hnot : ¬ 65537 ≤ recvd.length := by omega
    simp only [get_head_loop]
    rw [if_neg hnot]
    simp only [hfs, mkHeadResult, hda]
  · intro r rs bs s h0 h4 hfs hda
    have hlen0 : ¬ r.length = 0 := by omega
    simp only [get_head]
    rw [if_pos h4, if_neg hlen0]
    simp only [hfs, mkFirstResult, hda]

/-- Witness for C8 at concrete reads: an empty first read, a capped
accumulator, and a loop read carrying the separator. -/
theorem get_head_behavior_witness :
    get_head [([] : List Nat)] = some (.error .nullRequestError) ∧
    get_head_loop (List.replicate 65537 0) [] =
      some (.error .httpErrorTooLong) ∧
    get_head_loop [] [[13, 10, 13, 10, 7]] =
      some (.ok (['\r', '\n'], [7])) :=
  ⟨(get_head_behavior.1 [] [] (by decide)).mpr rfl,
    get_head_behavior.2.1 (List.replicate 65537 0) []
      (by rw [List.length_replicate]),
    get_head_behavior.2.2.1 [] [13, 10, 13, 10, 7] [] 0 ['\r', '\n']
      (by decide) (by decide) (by decide)⟩

end Iotscp

namespace Iotscp

/-! ### Shape lemmas for the regex model, and fuel adequacy of the header
scan -/

/-- A successful lazy `.+?` match splits its input: a nonempty group
followed by a remainder accepted by the continuation. -/
theorem lazyMatch_eq_some {β : Type} (k : List Char → Option β) :
    ∀ (s a : List Char) (b : β), lazyMatch k s = some (a, b) →
      ∃ s2, s = a ++ s2 ∧ k s2 = some b ∧ a ≠ [] := by
  intro s
  induction s with
  | nil => intro a b h; cases h
  | cons c rest ih =>
    intro a b h
    simp only [lazyMatch] at h
    by_cases hc : c = '\n'
    · rw [if_pos hc] at h; cases h
    · rw [if_neg hc] at h
      cases hk : k rest with
      | some b0 =>
        rw [hk] at h
        have he := Option.some.inj h
        injection he with ha hb
        subst ha; subst hb
        exact ⟨rest, rfl, hk, by simp⟩
      | none =>
        rw [hk] at h
        cases hlm : lazyMatch k rest with
        | some p =>
          obtain ⟨a0, b0⟩ := p
          rw [hlm] at h
          have he := Option.some.inj h
          injection he with ha hb
          obtain ⟨s2, hs2, hk2, -⟩ := ih a0 b0 hlm
          subst ha; subst hb
          exact ⟨s2, by rw [hs2]; rfl, hk2, by simp⟩
        | none => rw [hlm] at h; cases h

/-- A successful literal-character match splits its input. -/
theorem expectChar_eq_some (c : Char) :
    ∀ s r : List Char, expectChar c s = some r → s = c :: r := by
  intro s r h
  cases s with
  | nil => cases h
  | cons x rest =>
    simp only [expectChar] at h
    by_cases hx : x = c
    · rw [if_pos hx] at h
      rw [hx, Option.some.inj h]
    · rw [if_neg hx] at h; cases h

/-- A successful greedy `\s*` match splits its input. -/
theorem greedyWs_eq_some {β : Type} (k : List Char → Option β) :
    ∀ (s : List Char) (b : β), greedyWs k s = some b →
      ∃ w r, s = w ++ r ∧ k r = some b := by
  intro s
  induction s with
  | nil =>
    intro b h
    simp only [greedyWs] at h
    exact ⟨[], [], rfl, h⟩
  | cons c rest ih =>
    intro b h
    simp only [greedyWs] at h
    by_cases hc : isPySpace c = true
    · rw [if_pos hc] at h
      cases hg : greedyWs k rest with
      | some b0 =>
        rw [hg] at h
        obtain rfl : b0 = b := Option.some.inj h
        obtain ⟨w, r, hwr, hk⟩ := ih b0 hg
        exact ⟨c :: w, r, by rw [hwr]; rfl, hk⟩
      | none =>
        rw [hg] at h
        exact ⟨[], c :: rest, rfl, h⟩
    · rw [if_neg hc] at h
      exact ⟨[], c :: rest, rfl, h⟩

/-- Every `RE_HEADERS` match consumes at least one character, so the
remainder handed back to the scan is strictly shorter. -/
theorem matchHeader_rest_lt (s g1 g2 rest : List Char)
    (h : matchHeader s = some (g1, g2, rest)) : rest.length < s.length := by
  unfold matchHeader at h
  obtain ⟨s2, hs2, hk1, hne⟩ := lazyMatch_eq_some _ s g1 (g2, rest) h
  cases he : expectChar ':' s2 with
  | none => rw [he] at hk1; cases hk1
  | some r2 =>
    rw [he, Option.some_bind] at hk1
    have hs2e := expectChar_eq_some ':' s2 r2 he
    obtain ⟨w, r3, hwr, hk2⟩ := greedyWs_eq_some _ r2 (g2, rest) hk1
    obtain ⟨s4, hs4, hk3, -⟩ := lazyMatch_eq_some _ r3 g2 rest hk2
    cases hr : expectChar '\r' s4 with
    | none => rw [hr] at hk3; cases hk3
    | some r5 =>
      rw [hr, Option.some_bind] at hk3
      have h4 := expectChar_eq_some '\r' s4 r5 hr
      have h5 := expectChar_eq_some '\n' r5 rest hk3
      have hg1pos : 0 < g1.length := List.length_pos.mpr hne
      subst hs2 hs2e hwr hs4 h4 h5
      simp only [List.length_append, List.length_cons]
      omega

/-- Fuel `s.length` never runs out in the header scan: any larger fuel
computes the same header list, so `findHeaders` is the total
`RE_HEADERS.finditer`. -/
theorem findHeadersFuel_adequate :
    ∀ (fuel : Nat) (s : List Char), s.length ≤ fuel →
      findHeadersFuel fuel s = findHeaders s := by
  intro fuel
  induction fuel using Nat.strong_induction_on with
  | _ fuel ih =>
    intro s hs
    cases fuel with
    | zero =>
      have hnil : s = [] := List.eq_nil_of_length_eq_zero (Nat.le_zero.mp hs)
      subst hnil
      rfl
    | succ f =>
      cases s with
      | nil => rfl
      | cons c t =>
        have ht1 : t.length + 1 ≤ f + 1 := by simpa using hs
        show findHeadersFuel (f + 1) (c :: t) =
          findHeadersFuel (c :: t).length (c :: t)
        cases hm : matchHeader (c :: t) with
        | some p =>
          obtain ⟨g1, g2, rest⟩ := p
          have hlt := matchHeader_rest_lt (c :: t) g1 g2 rest hm
          simp only [List.length_cons] at hlt
          have e1 : findHeadersFuel f rest = findHeaders rest :=
            ih f (by omega) rest (by omega)
          have e2 : findHeadersFuel t.length rest = findHeaders rest :=
            ih t.length (by omega) rest (by omega)
          simp only [List.length_cons, findHeadersFuel, hm]
          rw [e1, e2]
        | none =>
          have e1 : findHeadersFuel f t = findHeaders t :=
            ih f (by omega) t (by omega)
          have e2 : findHeadersFuel t.length t = findHeaders t :=
            ih t.length (by omega) t (by omega)
          simp only [List.length_cons, findHeadersFuel, hm]
          rw [e1, e2]

end Iotscp

namespace Iotscp

/-- C9 counterexample: the responder replies to a datagram whose request
line is `IOT-SEARCH x HTTP/1.0` (with the three required headers), because
`should_respond` checks only `reqline.group(1) == "IOT-SEARCH"` and never
inspects the URL or protocol fields; the spec-side condition — request line
matching `IOT-SEARCH * HTTP/1.1` — is false on that datagram, refuting the
claimed iff. -/
theorem should_respond_ignores_url_and_proto :
    repliesTo (("IOT-SEARCH x HTTP/1.0\r\nHost: 239.255.255.250:1900\r\nSV: iotscp:discover\r\nReturn: device; type=basedevice\r\n\r\n").toList.map
        Char.toNat) = true ∧
    specRespondCond (("IOT-SEARCH x HTTP/1.0\r\nHost: 239.255.255.250:1900\r\nSV: iotscp:discover\r\nReturn: device; type=basedevice\r\n\r\n").toList.map
        Char.toNat) = false :=
  ⟨by decide, by decide⟩

/-- C9 amended: the discovery responder replies to a datagram iff it
ASCII-decodes, its request line parses as three space-separated fields whose
FIRST field is `IOT-SEARCH` (the URL and protocol fields are not checked),
header parsing raises no error, and the parsed headers bind host, sv and
return to `239.255.255.250:1900`, `iotscp:discover` and
`device; type=basedevice` respectively. -/
theorem should_respond_iff (d : List Nat) :
    repliesTo d = true ↔
      ∃ s, decodeAscii d = some s ∧
        (∃ g1 g2 g3, matchReqline s = some (g1, g2, g3) ∧
          g1 = "IOT-SEARCH".toList) ∧
        ∃ hs, parse_headers s = .ok hs ∧
          headerGet hs "host".toList =
            some (HVal.hstr "239.255.255.250:1900".toList) ∧
          headerGet hs "sv".toList =
            some (HVal.hstr "iotscp:discover".toList) ∧
          headerGet hs "return".toList =
            some (HVal.hstr "device; type=basedevice".toList) := by
  unfold repliesTo
  cases hdec : decodeAscii d with
  | none =>
    constructor
    · intro h; cases h
    · rintro ⟨s, hs, -, -⟩
      cases hs
  | some s =>
    constructor
    · intro h
      unfold should_respond at h
      cases hrq : matchReqline s with
      | none => simp only [hrq] at h; cases h
      | some g =>
        obtain ⟨g1, g2, g3⟩ := g
        simp only [hrq] at h
        by_cases hg1 : g1 = "IOT-SEARCH".toList
        · rw [if_pos hg1] at h
          cases hph : parse_headers s with
          | error e => simp only [hph] at h; cases h
          | ok hs2 =>
            simp only [hph] at h
            cases hh : headerGet hs2 "host".toList with
            | none => simp only [hh] at h; cases h
            | some hv =>
              cases hsv : headerGet hs2 "sv".toList with
              | none => simp only [hh, hsv] at h; cases h
              | some sv =>
                cases hrv : headerGet hs2 "return".toList with
                | none => simp only [hh, hsv, hrv] at h; cases h
                | some rv =>
                  simp only [hh, hsv, hrv, Bool.and_eq_true,
                    decide_eq_true_eq] at h
                  obtain ⟨⟨h1, h2⟩, h3⟩ := h
                  exact ⟨s, rfl, ⟨g1, g2, g3, hrq, hg1⟩,
                    hs2, hph, h1 ▸ hh, h2 ▸ hsv, h3 ▸ hrv⟩
        · rw [if_neg hg1] at h
          cases h
    · rintro ⟨s2, hdec2, ⟨g1, g2, g3, hrq, hg1⟩, hs2, hph, hh, hsv, hrv⟩
      obtain rfl : s = s2 := Option.some.inj hdec2
      simp only [should_respond, hrq, if_pos hg1, hph, hh, hsv, hrv,
        Bool.and_eq_true, decide_eq_true_eq]
      exact ⟨⟨trivial, trivial⟩, trivial⟩

end Iotscp
